import Mathlib

/-!
The nightly-build downloader `knd` (`knd.go`).

A shallow embedding of `knd.go` and the properties of its link discovery,
download orchestration and progress reporting.

Conventions of the embedding

* Go values that can be `nil` are `Option`s; a Go `error` is `Option GoError`.
* A Go call either returns, panics, or ends the process (`os.Exit`): `GoResult`.
* The operating system and the network are an explicit `World` (files on disk,
  number of GETs issued, the trace of effects) and an `Env` (what the outside
  answers).  Every effectful Go function takes the world and returns the new one.
* The HTML tokenizer of `golang.org/x/net/html` is outside the repository: a
  response body carries the token sequence the tokenizer yields on it.
* `float64` arithmetic of `PassThru.Read` is taken exactly, in `ℚ`; `int64`
  arithmetic wraps around.
* The deferred `Close` calls have no effect that is modelled.
-/

set_option autoImplicit false

namespace Knd

/-! ## HTML tokens (`golang.org/x/net/html`) -/

/-- The token kinds of `html.TokenType`. -/
inductive TokenType
  | ErrorToken
  | TextToken
  | StartTagToken
  | EndTagToken
  | SelfClosingTagToken
  | CommentToken
  | DoctypeToken
  deriving DecidableEq, Repr

/-- An attribute of a tag, `html.Attribute`. -/
structure Attribute where
  Namespace : String
  Key : String
  Val : String
  deriving DecidableEq, Repr

/-- A token, `html.Token` (the field `Type` is `Typ` here). -/
structure Token where
  Typ : TokenType
  Data : String
  Attr : List Attribute
  deriving DecidableEq, Repr

/-! ## `getHref` -/

/-- The body of the `for _, a := range t.Attr` loop of `getHref`, on the
named results `(ok, href)`. -/
def getHrefStep (acc : Bool × String) (a : Attribute) : Bool × String :=
  if a.Key = "href" then (true, a.Val) else acc

/-- Go `getHref`: the named results start at their zero values `(false, "")`,
the loop runs over every attribute, and the bare `return` yields them. -/
def getHref (t : Token) : Bool × String :=
  t.Attr.foldl getHrefStep (false, "")

/-! ## The anchor-collecting loop of `checknightlybuilds` -/

/-- The `Loop:` of `checknightlybuilds` over the tokens the tokenizer still has
to yield, with the slice `atokens` built so far.  `z.Next()` on an exhausted
input yields `ErrorToken` (end of document). -/
def anchorLoop : List Token → List Token → List Token
  | [], atokens => atokens
  | t :: rest, atokens =>
    match t.Typ with
    | TokenType.ErrorToken => atokens
    | TokenType.StartTagToken =>
      let isAnchor := t.Data = "a"
      if ¬ isAnchor then anchorLoop rest atokens
      else anchorLoop rest (atokens ++ [t])
    | _ => anchorLoop rest atokens

/-- The predicate "start-tag token whose Data is exactly a". -/
def isAnchorStart (t : Token) : Bool :=
  decide (t.Typ = TokenType.StartTagToken) && decide (t.Data = "a")

/-- The tokens that precede the first error token. -/
def beforeError (ts : List Token) : List Token :=
  ts.takeWhile (fun t => decide (t.Typ ≠ TokenType.ErrorToken))

/-! ## Go values, errors and outcomes -/

/-- A non-nil Go `error` value. -/
inductive GoError
  | EOF
  | ErrNotExist (name : String)
  | ErrShortWrite
  | errorString (msg : String)
  deriving DecidableEq, Repr

/-- The method `err.Error()`. -/
def GoError.Error : GoError → String
  | GoError.EOF => "EOF"
  | GoError.ErrNotExist name => "stat " ++ name ++ ": no such file or directory"
  | GoError.ErrShortWrite => "short write"
  | GoError.errorString msg => msg

/-- How a Go call ends: it returns a value, it panics (a run-time error such
as an out-of-range index or a nil dereference), or it ends the process with
`os.Exit`. -/
inductive GoResult (α : Type)
  | ok (v : α)
  | panicked (msg : String)
  | exited (code : Int)
  deriving DecidableEq, Repr

/-- The message of the run-time panic of an out-of-range index. -/
def indexOutOfRange : String := "runtime error: index out of range"

/-- The message of the run-time panic of a nil pointer dereference. -/
def nilDereference : String := "runtime error: invalid memory address or nil pointer dereference"

/-- Go `xs[i]` on a slice: a bounds-checked read, a panic when `i` is not in
`0 ≤ i < len(xs)`. -/
def sliceIndex {α : Type} (xs : List α) (i : Int) : GoResult α :=
  if i < 0 then GoResult.panicked indexOutOfRange
  else
    match xs[i.toNat]? with
    | some x => GoResult.ok x
    | none => GoResult.panicked indexOutOfRange

/-- Go `len(xs)` as an `int`. -/
def sliceLen {α : Type} (xs : List α) : Int := (xs.length : Int)

/-- Two's-complement wrap-around of `int64` arithmetic. -/
def wrapInt64 (x : Int) : Int := (x + 2 ^ 63) % 2 ^ 64 - 2 ^ 63

/-- Conversion of a float to `int`: truncation toward zero. -/
def truncToInt (q : ℚ) : Int := if 0 ≤ q then ⌊q⌋ else ⌈q⌉

/-! ## The outside world -/

/-- What one call of `Read` on an `io.Reader` returns: `(n, err)`. -/
structure ReadResult where
  n : Nat
  err : Option GoError
  deriving DecidableEq, Repr

/-- A response body: the results its successive `Read` calls return (after
them `Read` returns `(0, io.EOF)`), and the tokens `html.NewTokenizer` yields
on it. -/
structure Body where
  reads : List ReadResult
  tokens : List Token
  deriving DecidableEq, Repr

/-- The fields of `http.Response` the program uses. -/
structure Response where
  Body : Body
  ContentLength : Int
  deriving DecidableEq, Repr

/-- An observable effect. -/
inductive Event
  | httpGet (url : String)
  | stdout (line : String)
  | stderr (s : String)
  | stat (name : String)
  | create (name : String)
  | write (name : String) (n : Nat)
  | remove (name : String)
  | sleep
  | callDownloadFile (filepath : String) (url : String)
  deriving DecidableEq, Repr

/-- The state of the world: the files on disk (path and size in bytes), the
number of GETs issued so far, and the effects so far, oldest first. -/
structure World where
  fs : List (String × Nat)
  gets : Nat
  trace : List Event
  deriving DecidableEq, Repr

/-- What the outside answers: `net k url` is the pair `(response, error)` that
`http.Get(url)` returns when `k` GETs were issued before it; the fault tables
give, per path, the error with which `os.Stat`, `os.Create` and `Write` fail
there for a reason of their own (permissions, a full disk); a fault of
`os.Stat` is an error other than the not-exist error, given by its message. -/
structure Env where
  net : Nat → String → Option Response × Option GoError
  statFault : String → Option String
  createFault : String → Option GoError
  writeFault : String → Option GoError

/-- Record an effect. -/
def World.emit (w : World) (e : Event) : World :=
  { w with trace := w.trace ++ [e] }

/-- Go `fmt.Println(s)`. -/
def println (s : String) (w : World) : World := w.emit (Event.stdout s)

/-- Go `http.Get(url)`. -/
def httpGet (env : Env) (url : String) (w : World) :
    (Option Response × Option GoError) × World :=
  (env.net w.gets url,
   { w with gets := w.gets + 1, trace := w.trace ++ [Event.httpGet url] })

/-- Whether a path is on disk. -/
def fileExists (fs : List (String × Nat)) (name : String) : Bool :=
  fs.any (fun f => decide (f.1 = name))

/-- The error result of `os.Stat(name)` on the files `fs`: the fault of the
path when it has one, `nil` when the path is on disk, the not-exist error
otherwise. -/
def statError (env : Env) (fs : List (String × Nat)) (name : String) : Option GoError :=
  match env.statFault name with
  | some msg => some (GoError.errorString msg)
  | none => if fileExists fs name then none else some (GoError.ErrNotExist name)

/-- Go `os.Stat(name)`, its error result only. -/
def osStat (env : Env) (name : String) (w : World) : Option GoError × World :=
  (statError env w.fs name, w.emit (Event.stat name))

/-- Go `os.IsNotExist(err)`. -/
def osIsNotExist : Option GoError → Bool
  | some (GoError.ErrNotExist _) => true
  | _ => false

/-- Go `os.Create(name)`: the file is created, or truncated when it exists.
The open file is identified by its path. -/
def osCreate (env : Env) (name : String) (w : World) : Except GoError String × World :=
  let w1 := w.emit (Event.create name)
  match env.createFault name with
  | some e => (Except.error e, w1)
  | none =>
    (Except.ok name,
     { w1 with fs := (name, 0) :: w.fs.filter (fun f => decide (f.1 ≠ name)) })

/-- Go `out.Write(buf[0:n])` on the file at `name`: `(nw, ew)`. -/
def osWrite (env : Env) (name : String) (n : Nat) (w : World) :
    (Nat × Option GoError) × World :=
  let w1 := w.emit (Event.write name n)
  match env.writeFault name with
  | some e => ((0, some e), w1)
  | none =>
    ((n, none),
     { w1 with fs := w.fs.map (fun f => if f.1 = name then (f.1, f.2 + n) else f) })

/-- Go `os.Remove(name)`. -/
def osRemove (name : String) (w : World) : World :=
  { w with fs := w.fs.filter (fun f => decide (f.1 ≠ name)),
           trace := w.trace ++ [Event.remove name] }

/-- Go `time.Sleep(time.Hour)`. -/
def sleepHour (w : World) : World := w.emit Event.sleep

/-! ## `PassThru` -/

/-- The counters of `PassThru`; the embedded `io.Reader` is outside, its
`Read` results are handed to `PassThru.Read`. -/
structure PassThru where
  total : Int
  length : Int
  progress : ℚ
  deriving DecidableEq

/-- Go `(*PassThru).Read`, given the result `r` of `pt.Reader.Read(p)`. -/
def PassThru.Read (pt : PassThru) (r : ReadResult) (w : World) :
    ReadResult × PassThru × World :=
  if r.n > 0 then
    let total := wrapInt64 (pt.total + (r.n : Int))
    let percentage : ℚ := (total : ℚ) / (pt.length : ℚ) * 100
    let i := truncToInt (percentage / 10)
    let is := toString i
    if percentage - pt.progress > 2 then
      (r, { pt with total := total, progress := percentage }, w.emit (Event.stderr is))
    else
      (r, { pt with total := total }, w)
  else
    (r, pt, w)

/-- A sequence of `Read` calls on one `PassThru`, one per result of the
underlying reader. -/
def PassThru.readSeq : List ReadResult → PassThru → World → PassThru × World
  | [], pt, w => (pt, w)
  | r :: rest, pt, w =>
    let res := pt.Read r w
    PassThru.readSeq rest res.2.1 res.2.2

/-- The cumulative byte count of a sequence of reads. -/
def totalBytes (rs : List ReadResult) : Nat := (rs.map (fun r => r.n)).sum

/-- Go `io.Copy(dst, src)` with `src` a `*PassThru` over a reader that still
has the results `rs` to return, `dst` the open file at path `dst`: the copy
loop of the standard library, with `written` so far. -/
def ioCopy (env : Env) (dst : String) :
    List ReadResult → PassThru → World → Int → (Int × Option GoError) × PassThru × World
  | [], pt, w, written =>
    let res := pt.Read ⟨0, some GoError.EOF⟩ w
    ((written, none), res.2.1, res.2.2)
  | r :: rest, pt, w, written =>
    let res := pt.Read r w
    let nr := res.1.n
    let er := res.1.err
    let pt1 := res.2.1
    let w1 := res.2.2
    if nr > 0 then
      let wr := osWrite env dst nr w1
      let nw := wr.1.1
      let ew := wr.1.2
      let w2 := wr.2
      let written1 := written + (nw : Int)
      match ew with
      | some e => ((written1, some e), pt1, w2)
      | none =>
        if nr ≠ nw then ((written1, some GoError.ErrShortWrite), pt1, w2)
        else
          match er with
          | some e =>
            if e ≠ GoError.EOF then ((written1, some e), pt1, w2)
            else ((written1, none), pt1, w2)
          | none => ioCopy env dst rest pt1 w2 written1
    else
      match er with
      | some e =>
        if e ≠ GoError.EOF then ((written, some e), pt1, w1)
        else ((written, none), pt1, w1)
      | none => ioCopy env dst rest pt1 w1 written

/-! ## `downloadFile` -/

/-- Go `fmt.Errorf("Error while reading downloaded", url, "-", err)`: the
format has no verb, so the operands are appended as `%!(EXTRA ...)`.  Go
prints the dynamic type of the error operand there; it is written `error`. -/
def errorfReading (url : String) (err : GoError) : GoError :=
  GoError.errorString
    ("Error while reading downloaded%!(EXTRA string=" ++ url ++ ", string=-, error="
      ++ err.Error ++ ")")

/-- Go `downloadFile`. -/
def downloadFile (env : Env) (filepath url : String) (w : World) :
    GoResult (Option GoError) × World :=
  let w0 := w.emit (Event.callDownloadFile filepath url)
  -- Create the file
  match osCreate env filepath w0 with
  | (Except.error err, w1) => (GoResult.ok (some err), w1)
  | (Except.ok out, w1) =>
    -- Get the data
    let w2 := println ("Downloading: " ++ url) w1
    let got := httpGet env url w2
    let response := got.1.1
    let err := got.1.2
    let w3 := got.2
    -- readerpt := &PassThru{Reader: response.Body, length: response.ContentLength}
    match response with
    | none => (GoResult.panicked nilDereference, w3)
    | some response =>
      let readerpt : PassThru := { total := 0, length := response.ContentLength, progress := 0 }
      match err with
      | some e => (GoResult.ok (some e), w3)
      | none =>
        -- Writer the body to file
        let copied := ioCopy env out response.Body.reads readerpt w3 0
        match copied.1.2 with
        | some e => (GoResult.ok (some (errorfReading url e)), copied.2.2)
        | none => (GoResult.ok none, copied.2.2)

/-! ## `checknightlybuilds` -/

/-- Go `checknightlybuilds`. -/
def checknightlybuilds (env : Env) (sourceurl downloadto : String) (w : World) :
    GoResult (String × Option GoError) × World :=
  let got := httpGet env sourceurl w
  let resp := got.1.1
  let err := got.1.2
  let w1 := got.2
  match err with
  | some e => (GoResult.ok ("", some e), w1)
  | none =>
    -- b := resp.Body
    match resp with
    | none => (GoResult.panicked nilDereference, w1)
    | some resp =>
      let b := resp.Body
      -- the second `if err != nil` tests the same nil `err`: never taken
      let atokens := anchorLoop b.tokens []
      match sliceIndex atokens (sliceLen atokens - 1) with
      | GoResult.panicked msg => (GoResult.panicked msg, w1)
      | GoResult.exited code => (GoResult.exited code, w1)
      | GoResult.ok lasttoken =>
        let ok := (getHref lasttoken).1
        let lastlink := (getHref lasttoken).2
        let w2 := println lastlink w1
        if ¬ ok then
          (GoResult.ok ("", some (GoError.errorString "getHref failed")), w2)
        else
          let st := osStat env lastlink w2
          if osIsNotExist st.1 then
            match downloadFile env (downloadto ++ lastlink) (sourceurl ++ lastlink) st.2 with
            | (GoResult.panicked msg, w4) => (GoResult.panicked msg, w4)
            | (GoResult.exited code, w4) => (GoResult.exited code, w4)
            | (GoResult.ok (some e), w4) =>
              (GoResult.ok ("", some (GoError.errorString ("Download Failed " ++ e.Error))), w4)
            | (GoResult.ok none, w4) => (GoResult.ok (downloadto ++ lastlink, none), w4)
          else
            (GoResult.ok (downloadto ++ lastlink, none), st.2)

/-! ## The polling loop of `main` -/

/-- One iteration of the `for` loop of the goroutine of `main`.  The result is
`ok` when the iteration reaches its end (the loop goes on), with the value
the variable `lastdownload` of this iteration then has. -/
def mainIteration (env : Env) (sourceurl downloadto : String) (w : World) :
    GoResult String × World :=
  -- var lastdownload string
  let lastdownload : String := ""
  match checknightlybuilds env sourceurl downloadto w with
  | (GoResult.panicked msg, w1) => (GoResult.panicked msg, w1)
  | (GoResult.exited code, w1) => (GoResult.exited code, w1)
  | (GoResult.ok (_, some err), w1) => (GoResult.exited 1, println err.Error w1)
  | (GoResult.ok (newdownload, none), w1) =>
    let w2 := if lastdownload ≠ "" then osRemove lastdownload w1 else w1
    let lastdownload := newdownload
    (GoResult.ok lastdownload, sleepHour w2)

/-- The first `n` iterations of the `for` loop of the goroutine of `main`; it
stops early when an iteration panics or exits.  Each iteration declares its
own `lastdownload`: the value the previous one ended with is not passed on. -/
def mainLoop (env : Env) (sourceurl downloadto : String) : Nat → World → GoResult Unit × World
  | 0, w => (GoResult.ok (), w)
  | n + 1, w =>
    match mainIteration env sourceurl downloadto w with
    | (GoResult.ok _, w1) => mainLoop env sourceurl downloadto n w1
    | (GoResult.panicked msg, w1) => (GoResult.panicked msg, w1)
    | (GoResult.exited code, w1) => (GoResult.exited code, w1)

/-- The `os.Remove` effects of a trace. -/
def removals (tr : List Event) : List String :=
  tr.filterMap (fun e => match e with
    | Event.remove name => some name
    | _ => none)

/-- The `downloadFile` calls of a trace, as `(filepath, url)`. -/
def downloadCalls (tr : List Event) : List (String × String) :=
  tr.filterMap (fun e => match e with
    | Event.callDownloadFile filepath url => some (filepath, url)
    | _ => none)

/-- The items written to standard error in a trace. -/
def stderrItems (tr : List Event) : List String :=
  tr.filterMap (fun e => match e with
    | Event.stderr s => some s
    | _ => none)

/-- The files created or truncated in a trace. -/
def creations (tr : List Event) : List String :=
  tr.filterMap (fun e => match e with
    | Event.create name => some name
    | _ => none)

/-- The effects of a transfer: GETs, printed lines, progress items and writes
to the open file. -/
def isTransferEvent : Event → Bool
  | Event.httpGet _ => true
  | Event.stdout _ => true
  | Event.stderr _ => true
  | Event.write _ _ => true
  | _ => false

/-- The decile `int(percentage / 10)` that `PassThru.Read` computes when the
total is `t` and the expected length is `l`. -/
def decile (l t : Int) : Int := truncToInt ((t : ℚ) / (l : ℚ) * 100 / 10)

/-- The world when `checknightlybuilds` has fetched the listing, printed the
last link and checked whether it exists: no file has changed. -/
def afterCheck (w : World) (sourceurl link : String) : World :=
  { fs := w.fs, gets := w.gets + 1,
    trace := w.trace ++ [Event.httpGet sourceurl, Event.stdout link, Event.stat link] }

/-- The world when `downloadFile` starts the copy: the call is recorded, the
file is created (empty), the line `Downloading: url` is printed and the GET
is issued. -/
def transferStart (env : Env) (filepath url : String) (w : World) : World :=
  (httpGet env url (println ("Downloading: " ++ url)
    (osCreate env filepath (w.emit (Event.callDownloadFile filepath url))).2)).2

/-! ## Sample inputs -/

/-- The source URL of `main`. -/
def sampleSource : String := "http://downloads.kicad-pcb.org/windows/nightly/"

/-- A listing whose last anchor is `<a href="kicad-2024-nightly.zip">`. -/
def sampleListing : Response :=
  { Body :=
      { reads := [],
        tokens :=
          [⟨TokenType.StartTagToken, "html", []⟩,
           ⟨TokenType.StartTagToken, "a", [⟨"", "href", "kicad-2023-nightly.zip"⟩]⟩,
           ⟨TokenType.TextToken, "kicad-2023-nightly.zip", []⟩,
           ⟨TokenType.EndTagToken, "a", []⟩,
           ⟨TokenType.StartTagToken, "a", [⟨"", "href", "kicad-2024-nightly.zip"⟩]⟩,
           ⟨TokenType.TextToken, "kicad-2024-nightly.zip", []⟩,
           ⟨TokenType.EndTagToken, "a", []⟩,
           ⟨TokenType.EndTagToken, "html", []⟩] },
    ContentLength := 0 }

/-- A listing whose last anchor has no `href`, after one that has. -/
def sampleListingNoHref : Response :=
  { Body :=
      { reads := [],
        tokens :=
          [⟨TokenType.StartTagToken, "a", [⟨"", "href", "kicad-2023-nightly.zip"⟩]⟩,
           ⟨TokenType.EndTagToken, "a", []⟩,
           ⟨TokenType.StartTagToken, "a", [⟨"", "name", "top"⟩]⟩,
           ⟨TokenType.EndTagToken, "a", []⟩] },
    ContentLength := 0 }

/-- A 1000-byte file read in ten 100-byte chunks. -/
def sampleFile : Response :=
  { Body := { reads := List.replicate 10 ⟨100, none⟩, tokens := [] },
    ContentLength := 1000 }

/-- An outside where the listing is `listing`, the nightly build is
`sampleFile`, every other GET fails, and no file operation has a fault. -/
def sampleEnv (listing : Response) : Env :=
  { net := fun _ url =>
      if url = sampleSource then (some listing, none)
      else if url = sampleSource ++ "kicad-2024-nightly.zip" then (some sampleFile, none)
      else (none, some (GoError.errorString "no such host")),
    statFault := fun _ => none,
    createFault := fun _ => none,
    writeFault := fun _ => none }

/-- An outside where every GET fails with `(nil, err)`. -/
def offlineEnv : Env :=
  { net := fun _ _ => (none, some (GoError.errorString "dial tcp: no such host")),
    statFault := fun _ => none,
    createFault := fun _ => none,
    writeFault := fun _ => none }

/-- A listing whose last anchor is `<a href="nightly/kicad-2024-nightly.zip">`. -/
def sampleListingSubdir : Response :=
  { Body :=
      { reads := [],
        tokens :=
          [⟨TokenType.StartTagToken, "a", [⟨"", "href", "nightly/kicad-2024-nightly.zip"⟩]⟩,
           ⟨TokenType.EndTagToken, "a", []⟩] },
    ContentLength := 0 }

/-- An outside where the listing is `sampleListingSubdir` and `os.Stat` on the
path under `nightly/` fails with an error that is not the not-exist error
(`nightly` is a regular file of the working directory). -/
def notDirEnv : Env :=
  { net := fun _ url =>
      if url = sampleSource then (some sampleListingSubdir, none)
      else (some sampleFile, none),
    statFault := fun name =>
      if name = "nightly/kicad-2024-nightly.zip" then some "not a directory" else none,
    createFault := fun _ => none,
    writeFault := fun _ => none }

/-- A world with no file and no effect yet. -/
def emptyWorld : World := { fs := [], gets := 0, trace := [] }

/-- A world where the bare name of the nightly build is on disk. -/
def haveWorld : World := { fs := [("kicad-2024-nightly.zip", 1000)], gets := 0, trace := [] }

/-! ## Theorems: `getHref` -/

theorem getHref_foldl_no_match (attrs : List Attribute) (acc : Bool × String)
    (h : ∀ a ∈ attrs, a.Key ≠ "href") : attrs.foldl getHrefStep acc = acc := by
  induction attrs generalizing acc with
  | nil => rfl
  | cons a rest ih =>
    have ha : a.Key ≠ "href" := h a (List.mem_cons_self a rest)
    have hr : ∀ b ∈ rest, b.Key ≠ "href" := fun b hb => h b (List.mem_cons_of_mem a hb)
    simp [List.foldl_cons, getHrefStep, ha, ih _ hr]

/-- C1: `getHref` returns `(true, v)` with `v` the value of the last attribute
whose key is exactly `href`, and `(false, "")` when no attribute has that key;
keys are compared case-sensitively, and the three sample tokens of the
specification give `(true, "/a.zip")`, `(true, "/new")` and `(false, "")`. -/
theorem getHref_last_href (t : Token) :
    (∀ (pre post : List Attribute) (a : Attribute),
        t.Attr = pre ++ a :: post → a.Key = "href" →
        (∀ b ∈ post, b.Key ≠ "href") → getHref t = (true, a.Val)) ∧
    ((∀ a ∈ t.Attr, a.Key ≠ "href") → getHref t = (false, "")) ∧
    getHref ⟨TokenType.StartTagToken, "a", [⟨"", "HREF", "/x"⟩, ⟨"", "Href", "/y"⟩]⟩
      = (false, "") ∧
    getHref ⟨TokenType.StartTagToken, "a", [⟨"", "class", "x"⟩, ⟨"", "href", "/a.zip"⟩]⟩
      = (true, "/a.zip") ∧
    getHref ⟨TokenType.StartTagToken, "a", [⟨"", "href", "/old"⟩, ⟨"", "href", "/new"⟩]⟩
      = (true, "/new") ∧
    getHref ⟨TokenType.StartTagToken, "a", []⟩ = (false, "") := by
  refine ⟨?_, ?_, by decide, by decide, by decide, by decide⟩
  · intro pre post a hattr hkey hpost
    unfold getHref
    rw [hattr, List.foldl_append, List.foldl_cons]
    have hstep : getHrefStep (List.foldl getHrefStep (false, "") pre) a = (true, a.Val) := by
      simp [getHrefStep, hkey]
    rw [hstep]
    exact getHref_foldl_no_match post _ hpost
  · intro h
    exact getHref_foldl_no_match t.Attr _ h

/-- Witness of C1 on the token `<a href="/old" href="/new">`: the last `href`
attribute is the second one. -/
theorem getHref_last_href_witness :
    getHref ⟨TokenType.StartTagToken, "a", [⟨"", "href", "/old"⟩, ⟨"", "href", "/new"⟩]⟩
      = (true, "/new") :=
  (getHref_last_href
      ⟨TokenType.StartTagToken, "a", [⟨"", "href", "/old"⟩, ⟨"", "href", "/new"⟩]⟩).1
    [⟨"", "href", "/old"⟩] [] ⟨"", "href", "/new"⟩ rfl rfl (by simp)

/-! ## Theorems: the anchor loop -/

theorem anchorLoop_eq (ts acc : List Token) :
    anchorLoop ts acc = acc ++ (beforeError ts).filter isAnchorStart := by
  induction ts generalizing acc with
  | nil => simp [anchorLoop, beforeError]
  | cons t rest ih =>
    unfold anchorLoop
    have hacc := ih acc
    cases hty : t.Typ <;>
      simp [beforeError, List.takeWhile_cons, hty, isAnchorStart, List.filter_cons] <;>
      first
        | simpa [beforeError] using hacc
        | skip
    by_cases hd : t.Data = "a"
    · simp [hd, ih, beforeError]
    · simp [hd, ih, beforeError]

/-- C2: the slice `atokens` built by the loop of `checknightlybuilds` (started
empty) is exactly the subsequence, in order and with tokens unchanged, of the
start-tag tokens whose Data is `a` among the tokens before the first error
token; in particular every collected token is such a start tag, and its length
is the number of those anchors. -/
theorem anchorLoop_collects_anchors (ts : List Token) :
    anchorLoop ts [] = (beforeError ts).filter isAnchorStart ∧
    List.Sublist (anchorLoop ts []) ts ∧
    (∀ t ∈ anchorLoop ts [],
        t.Typ = TokenType.StartTagToken ∧ t.Data = "a" ∧ t ∈ beforeError ts) ∧
    (anchorLoop ts []).length = (beforeError ts).countP isAnchorStart := by
  have h := anchorLoop_eq ts []
  simp only [List.nil_append] at h
  refine ⟨h, ?_, ?_, ?_⟩
  · rw [h]
    exact (List.filter_sublist _).trans (List.takeWhile_sublist _)
  · intro t ht
    rw [h, List.mem_filter] at ht
    have := ht.2
    simp [isAnchorStart] at this
    exact ⟨this.1, this.2, ht.1⟩
  · rw [h, List.countP_eq_length_filter]

/-! ## Theorems: indexing the last anchor -/

theorem sliceIndex_last {α : Type} (xs : List α) (x : α) (h : xs.getLast? = some x) :
    sliceIndex xs (sliceLen xs - 1) = GoResult.ok x := by
  have hne : xs ≠ [] := by
    intro h0
    simp [h0] at h
  have hlen : 0 < xs.length := List.length_pos.mpr hne
  have hi : ¬ ((xs.length : Int) - 1 < 0) := by omega
  have hn : ((xs.length : Int) - 1).toNat = xs.length - 1 := by omega
  rw [List.getLast?_eq_getElem?] at h
  simp only [sliceIndex, sliceLen, hi, if_false, hn, h]

theorem sliceIndex_nil {α : Type} :
    sliceIndex ([] : List α) (sliceLen ([] : List α) - 1)
      = GoResult.panicked indexOutOfRange := by
  simp [sliceIndex, sliceLen]

/-! ## Theorems: the effects of a download -/

theorem transfer_no_downloadCalls (evs : List Event)
    (h : ∀ e ∈ evs, isTransferEvent e = true) : downloadCalls evs = [] := by
  induction evs with
  | nil => rfl
  | cons e rest ih =>
    have he := h e (List.mem_cons_self e rest)
    have hr := ih (fun x hx => h x (List.mem_cons_of_mem e hx))
    cases e <;> simp_all [downloadCalls, isTransferEvent]

theorem transfer_no_removals (evs : List Event)
    (h : ∀ e ∈ evs, isTransferEvent e = true) : removals evs = [] := by
  induction evs with
  | nil => rfl
  | cons e rest ih =>
    have he := h e (List.mem_cons_self e rest)
    have hr := ih (fun x hx => h x (List.mem_cons_of_mem e hx))
    cases e <;> simp_all [removals, isTransferEvent]

theorem transfer_no_creations (evs : List Event)
    (h : ∀ e ∈ evs, isTransferEvent e = true) : creations evs = [] := by
  induction evs with
  | nil => rfl
  | cons e rest ih =>
    have he := h e (List.mem_cons_self e rest)
    have hr := ih (fun x hx => h x (List.mem_cons_of_mem e hx))
    cases e <;> simp_all [creations, isTransferEvent]

theorem downloadCalls_append (xs ys : List Event) :
    downloadCalls (xs ++ ys) = downloadCalls xs ++ downloadCalls ys := by
  simp [downloadCalls, List.filterMap_append]

theorem removals_append (xs ys : List Event) :
    removals (xs ++ ys) = removals xs ++ removals ys := by
  simp [removals, List.filterMap_append]

theorem creations_append (xs ys : List Event) :
    creations (xs ++ ys) = creations xs ++ creations ys := by
  simp [creations, List.filterMap_append]

/-- One `Read` leaves the trace as it is or appends one item to standard error. -/
theorem PassThru.Read_trace (pt : PassThru) (r : ReadResult) (w : World) :
    (pt.Read r w).2.2.trace = w.trace ∨
    ∃ s, (pt.Read r w).2.2.trace = w.trace ++ [Event.stderr s] := by
  unfold PassThru.Read
  by_cases h : r.n > 0
  · simp only [h, if_true]
    split
    · exact Or.inr ⟨_, rfl⟩
    · exact Or.inl rfl
  · simp [h]

theorem PassThru.Read_transfer (pt : PassThru) (r : ReadResult) (w : World) :
    ∃ evs, (pt.Read r w).2.2.trace = w.trace ++ evs ∧
      ∀ e ∈ evs, isTransferEvent e = true := by
  rcases PassThru.Read_trace pt r w with h | ⟨s, h⟩
  · exact ⟨[], by simp [h], by simp⟩
  · exact ⟨[Event.stderr s], h, by simp [isTransferEvent]⟩

theorem PassThru.Read_result (pt : PassThru) (r : ReadResult) (w : World) :
    (pt.Read r w).1 = r := by
  unfold PassThru.Read
  by_cases h : r.n > 0
  · simp only [h, if_true]
    split <;> rfl
  · simp only [h, if_false]

theorem osWrite_transfer (env : Env) (name : String) (n : Nat) (w : World) :
    (osWrite env name n w).2.trace = w.trace ++ [Event.write name n] := by
  unfold osWrite
  cases env.writeFault name <;> simp [World.emit]

theorem ioCopy_transfer (env : Env) (dst : String) (rs : List ReadResult) :
    ∀ (pt : PassThru) (w : World) (written : Int),
      ∃ evs, (ioCopy env dst rs pt w written).2.2.trace = w.trace ++ evs ∧
        ∀ e ∈ evs, isTransferEvent e = true := by
  induction rs with
  | nil =>
    intro pt w written
    simpa [ioCopy] using PassThru.Read_transfer pt ⟨0, some GoError.EOF⟩ w
  | cons r rest ih =>
    intro pt w written
    obtain ⟨e1, h1, t1⟩ := PassThru.Read_transfer pt r w
    have hw := osWrite_transfer env dst (pt.Read r w).1.n (pt.Read r w).2.2
    have key1 : ∃ evs, (pt.Read r w).2.2.trace = w.trace ++ evs ∧
        ∀ e ∈ evs, isTransferEvent e = true := ⟨e1, h1, t1⟩
    have key2 : ∃ evs, (osWrite env dst (pt.Read r w).1.n (pt.Read r w).2.2).2.trace
        = w.trace ++ evs ∧ ∀ e ∈ evs, isTransferEvent e = true := by
      refine ⟨e1 ++ [Event.write dst (pt.Read r w).1.n], ?_, ?_⟩
      · rw [hw, h1, List.append_assoc]
      · intro e he
        rcases List.mem_append.mp he with h | h
        · exact t1 e h
        · simp at h
          simp [h, isTransferEvent]
    have step : ∀ (pt1 : PassThru) (w1 : World) (wr : Int),
        (∃ evs, w1.trace = w.trace ++ evs ∧ ∀ e ∈ evs, isTransferEvent e = true) →
        ∃ evs, (ioCopy env dst rest pt1 w1 wr).2.2.trace = w.trace ++ evs ∧
          ∀ e ∈ evs, isTransferEvent e = true := by
      intro pt1 w1 wr ⟨ea, ha, ta⟩
      obtain ⟨eb, hb, tb⟩ := ih pt1 w1 wr
      refine ⟨ea ++ eb, ?_, ?_⟩
      · rw [hb, ha, List.append_assoc]
      · intro e he
        rcases List.mem_append.mp he with h | h
        · exact ta e h
        · exact tb e h
    unfold ioCopy
    simp only []
    split
    · split
      · exact key2
      · split
        · exact key2
        · split
          · split
            · exact key2
            · exact key2
          · exact step _ _ _ key2
    · split
      · split
        · exact key1
        · exact key1
      · exact step _ _ _ key1

theorem osCreate_trace (env : Env) (name : String) (w : World) :
    (osCreate env name w).2.trace = w.trace ++ [Event.create name] := by
  unfold osCreate
  cases env.createFault name <;> simp [World.emit]

/-- The effects of `downloadFile`: the call, the creation of the file, and
then only effects of the transfer. -/
theorem downloadFile_trace (env : Env) (filepath url : String) (w : World) :
    ∃ evs, (downloadFile env filepath url w).2.trace
        = w.trace ++ Event.callDownloadFile filepath url :: Event.create filepath :: evs ∧
      ∀ e ∈ evs, isTransferEvent e = true := by
  unfold downloadFile
  simp only []
  have hc := osCreate_trace env filepath (w.emit (Event.callDownloadFile filepath url))
  split
  · rename_i err w1 heq
    refine ⟨[], ?_, by simp⟩
    have : w1 = (osCreate env filepath (w.emit (Event.callDownloadFile filepath url))).2 := by
      rw [heq]
    rw [this, hc]
    simp [World.emit]
  · rename_i out w1 heq
    have hw1 : w1.trace
        = w.trace ++ [Event.callDownloadFile filepath url, Event.create filepath] := by
      have : w1 = (osCreate env filepath (w.emit (Event.callDownloadFile filepath url))).2 := by
        rw [heq]
      rw [this, hc]
      simp [World.emit]
    have hw3 : (httpGet env url (println ("Downloading: " ++ url) w1)).2.trace
        = w.trace ++ Event.callDownloadFile filepath url :: Event.create filepath ::
            [Event.stdout ("Downloading: " ++ url), Event.httpGet url] := by
      simp [httpGet, println, World.emit, hw1]
    have t3 : ∀ e ∈ [Event.stdout ("Downloading: " ++ url), Event.httpGet url],
        isTransferEvent e = true := by
      intro e he
      simp at he
      rcases he with h | h <;> simp [h, isTransferEvent]
    split
    · exact ⟨_, hw3, t3⟩
    · split
      · exact ⟨_, hw3, t3⟩
      · rename_i response _ _ _
        obtain ⟨ec, hcopy, tc⟩ := ioCopy_transfer env out response.Body.reads
          { total := 0, length := response.ContentLength, progress := 0 }
          (httpGet env url (println ("Downloading: " ++ url) w1)).2 0
        have hfin : ∃ evs, (ioCopy env out response.Body.reads
            { total := 0, length := response.ContentLength, progress := 0 }
            (httpGet env url (println ("Downloading: " ++ url) w1)).2 0).2.2.trace
            = w.trace ++ Event.callDownloadFile filepath url :: Event.create filepath :: evs ∧
            ∀ e ∈ evs, isTransferEvent e = true := by
          refine ⟨[Event.stdout ("Downloading: " ++ url), Event.httpGet url] ++ ec, ?_, ?_⟩
          · rw [hcopy, hw3]
            simp
          · intro e he
            rcases List.mem_append.mp he with h | h
            · exact t3 e h
            · exact tc e h
        split
        · exact hfin
        · exact hfin

/-- With the file created and the GET answered without error, the result is
`nil` when the copy succeeds and a non-nil error when the copy fails. -/
theorem downloadFile_after_get (env : Env) (filepath url : String) (w : World)
    (response : Response) (hcreate : env.createFault filepath = none)
    (hget : env.net w.gets url = (some response, none)) :
    (downloadFile env filepath url w).1
      = match (ioCopy env filepath response.Body.reads
            { total := 0, length := response.ContentLength, progress := 0 }
            (transferStart env filepath url w) 0).1.2 with
        | some e => GoResult.ok (some (errorfReading url e))
        | none => GoResult.ok none := by
  simp only [downloadFile, transferStart, osCreate, hcreate, httpGet, println, World.emit, hget]
  split <;> rename_i heq <;> simp only [heq]

/-- The copy succeeds when no read and no write fails. -/
theorem ioCopy_ok (env : Env) (dst : String) (hwf : env.writeFault dst = none)
    (rs : List ReadResult) (hrs : ∀ r ∈ rs, r.err = none) :
    ∀ (pt : PassThru) (w : World) (written : Int),
      (ioCopy env dst rs pt w written).1.2 = none := by
  have hw : ∀ (n : Nat) (w : World), (osWrite env dst n w).1 = (n, none) := by
    intro n w
    simp [osWrite, hwf]
  induction rs with
  | nil =>
    intro pt w written
    simp [ioCopy]
  | cons r rest ih =>
    intro pt w written
    have hr : r.err = none := hrs r (List.mem_cons_self r rest)
    have ih' := ih (fun x hx => hrs x (List.mem_cons_of_mem r hx))
    unfold ioCopy
    simp only [PassThru.Read_result, hw, hr]
    split
    · simp [ih']
    · simp [ih']

/-- A download whose file is created, whose GET is answered without error and
whose reads and writes do not fail returns `nil`. -/
theorem downloadFile_success (env : Env) (filepath url : String) (w : World)
    (response : Response) (hcreate : env.createFault filepath = none)
    (hget : env.net w.gets url = (some response, none))
    (hwf : env.writeFault filepath = none)
    (hrs : ∀ r ∈ response.Body.reads, r.err = none) :
    (downloadFile env filepath url w).1 = GoResult.ok none := by
  rw [downloadFile_after_get env filepath url w response hcreate hget,
    ioCopy_ok env filepath hwf response.Body.reads hrs]

/-- A download whose copy fails returns a non-nil error. -/
theorem downloadFile_copy_fails (env : Env) (filepath url : String) (w : World)
    (response : Response) (e : GoError) (hcreate : env.createFault filepath = none)
    (hget : env.net w.gets url = (some response, none))
    (hcopy : (ioCopy env filepath response.Body.reads
        { total := 0, length := response.ContentLength, progress := 0 }
        (transferStart env filepath url w) 0).1.2 = some e) :
    (downloadFile env filepath url w).1 = GoResult.ok (some (errorfReading url e)) := by
  rw [downloadFile_after_get env filepath url w response hcreate hget, hcopy]

/-! ## Theorems: `checknightlybuilds` -/

/-- The world after the listing was fetched and the last link printed. -/
theorem checknightlybuilds_unfold (env : Env) (sourceurl downloadto : String) (w : World)
    (resp : Response) (t : Token)
    (hget : env.net w.gets sourceurl = (some resp, none))
    (hlast : (anchorLoop resp.Body.tokens []).getLast? = some t) :
    checknightlybuilds env sourceurl downloadto w =
      if ¬ ((getHref t).1 = true) then
        (GoResult.ok ("", some (GoError.errorString "getHref failed")),
          println (getHref t).2 (httpGet env sourceurl w).2)
      else
        if osIsNotExist (osStat env (getHref t).2
            (println (getHref t).2 (httpGet env sourceurl w).2)).1 then
          match downloadFile env (downloadto ++ (getHref t).2) (sourceurl ++ (getHref t).2)
              (osStat env (getHref t).2 (println (getHref t).2 (httpGet env sourceurl w).2)).2 with
          | (GoResult.panicked msg, w4) => (GoResult.panicked msg, w4)
          | (GoResult.exited code, w4) => (GoResult.exited code, w4)
          | (GoResult.ok (some e), w4) =>
            (GoResult.ok ("", some (GoError.errorString ("Download Failed " ++ e.Error))), w4)
          | (GoResult.ok none, w4) => (GoResult.ok (downloadto ++ (getHref t).2, none), w4)
        else
          (GoResult.ok (downloadto ++ (getHref t).2, none),
            (osStat env (getHref t).2 (println (getHref t).2 (httpGet env sourceurl w).2)).2) := by
  have hidx := sliceIndex_last _ _ hlast
  simp only [checknightlybuilds, httpGet, hget, hidx]

/-- C5: when the listing has at least one anchor and its last anchor has no
attribute with key `href`, `checknightlybuilds` returns the empty string with
the error `getHref failed`; the only effects are the GET of the listing and
the printed (empty) link, so the file existence is not checked,
`downloadFile` is not called and the files on disk are unchanged, whatever
the earlier anchors carry. -/
theorem checknightlybuilds_missing_href (env : Env) (sourceurl downloadto : String)
    (w : World) (resp : Response) (t : Token)
    (hget : env.net w.gets sourceurl = (some resp, none))
    (hlast : (anchorLoop resp.Body.tokens []).getLast? = some t)
    (hno : ∀ a ∈ t.Attr, a.Key ≠ "href") :
    (checknightlybuilds env sourceurl downloadto w).1
      = GoResult.ok ("", some (GoError.errorString "getHref failed")) ∧
    (GoError.errorString "getHref failed").Error = "getHref failed" ∧
    (checknightlybuilds env sourceurl downloadto w).2.trace
      = w.trace ++ [Event.httpGet sourceurl, Event.stdout ""] ∧
    (∀ name, Event.stat name ∉ [Event.httpGet sourceurl, Event.stdout ""]) ∧
    downloadCalls (checknightlybuilds env sourceurl downloadto w).2.trace
      = downloadCalls w.trace ∧
    (checknightlybuilds env sourceurl downloadto w).2.fs = w.fs := by
  have hh : getHref t = (false, "") := getHref_foldl_no_match t.Attr _ hno
  rw [checknightlybuilds_unfold env sourceurl downloadto w resp t hget hlast]
  simp [hh, println, World.emit, httpGet, downloadCalls, GoError.Error]

theorem downloadFile_downloadCalls (env : Env) (filepath url : String) (w : World) :
    downloadCalls (downloadFile env filepath url w).2.trace
      = downloadCalls w.trace ++ [(filepath, url)] := by
  obtain ⟨evs, h, ht⟩ := downloadFile_trace env filepath url w
  have h0 := transfer_no_downloadCalls evs ht
  rw [h, downloadCalls_append]
  simp only [downloadCalls, List.filterMap_cons] at h0 ⊢
  rw [h0]

theorem downloadFile_removals (env : Env) (filepath url : String) (w : World) :
    removals (downloadFile env filepath url w).2.trace = removals w.trace := by
  obtain ⟨evs, h, ht⟩ := downloadFile_trace env filepath url w
  have h0 := transfer_no_removals evs ht
  rw [h, removals_append]
  simp only [removals, List.filterMap_cons] at h0 ⊢
  rw [h0]
  simp

theorem statError_absent (env : Env) (fs : List (String × Nat)) (link : String)
    (hnofault : env.statFault link = none) (habsent : fileExists fs link = false) :
    osIsNotExist (statError env fs link) = true := by
  simp [statError, hnofault, habsent, osIsNotExist]

theorem statError_present (env : Env) (fs : List (String × Nat)) (link : String)
    (hpresent : fileExists fs link = true) :
    osIsNotExist (statError env fs link) = false := by
  unfold statError
  cases env.statFault link <;> simp [hpresent, osIsNotExist]

theorem afterCheck_eq (env : Env) (w : World) (sourceurl link : String) :
    (osStat env link (println link (httpGet env sourceurl w).2)).2
      = afterCheck w sourceurl link := by
  simp [osStat, println, httpGet, World.emit, afterCheck]

/-- C3, amended: when the last anchor of the fetched listing has the `href`
value `link` and `os.Stat(link)` reports the not-exist error (the path is not
on disk and `os.Stat` has no other failure on it), `checknightlybuilds` calls
`downloadFile` exactly once, with the file path `downloadto ++ link` and the
URL `sourceurl ++ link`; its effects are those of that call made after the
check, and when the download returns `nil` it returns `(downloadto ++ link, nil)`. -/
theorem checknightlybuilds_downloads_missing (env : Env) (sourceurl downloadto : String)
    (w : World) (resp : Response) (t : Token) (link : String)
    (hget : env.net w.gets sourceurl = (some resp, none))
    (hlast : (anchorLoop resp.Body.tokens []).getLast? = some t)
    (hhref : getHref t = (true, link))
    (hnofault : env.statFault link = none)
    (habsent : fileExists w.fs link = false) :
    downloadCalls (checknightlybuilds env sourceurl downloadto w).2.trace
      = downloadCalls w.trace ++ [(downloadto ++ link, sourceurl ++ link)] ∧
    (checknightlybuilds env sourceurl downloadto w).2
      = (downloadFile env (downloadto ++ link) (sourceurl ++ link)
          (afterCheck w sourceurl link)).2 ∧
    ((downloadFile env (downloadto ++ link) (sourceurl ++ link)
          (afterCheck w sourceurl link)).1 = GoResult.ok none →
      (checknightlybuilds env sourceurl downloadto w).1
        = GoResult.ok (downloadto ++ link, none)) := by
  have hst : osIsNotExist (osStat env link (println link (httpGet env sourceurl w).2)).1
      = true := by
    have := statError_absent env w.fs link hnofault habsent
    simpa [osStat, println, httpGet, World.emit] using this
  have hw := afterCheck_eq env w sourceurl link
  have hun := checknightlybuilds_unfold env sourceurl downloadto w resp t hget hlast
  rw [hhref] at hun
  simp only [hst, hw, if_true, not_true_eq_false, if_false] at hun
  have hsnd : (checknightlybuilds env sourceurl downloadto w).2
      = (downloadFile env (downloadto ++ link) (sourceurl ++ link)
          (afterCheck w sourceurl link)).2 := by
    rw [hun]
    split <;> rename_i heq <;> rw [heq]
  refine ⟨?_, hsnd, ?_⟩
  · rw [hsnd, downloadFile_downloadCalls]
    simp [afterCheck, downloadCalls, List.filterMap_append]
  · intro hd
    rw [hun]
    split <;> rename_i heq <;> rw [heq] at hd <;> simp_all

/-- C3 as stated fails when `os.Stat` fails with an error other than the
not-exist error: the last anchor is `<a href="nightly/kicad-2024-nightly.zip">`,
no local path of that name is on disk, and yet `checknightlybuilds` makes no
`downloadFile` call, creates no file, and returns the destination path with a
nil error. -/
theorem checknightlybuilds_stat_error_skips_download :
    (anchorLoop sampleListingSubdir.Body.tokens []).getLast?
      = some ⟨TokenType.StartTagToken, "a",
          [⟨"", "href", "nightly/kicad-2024-nightly.zip"⟩]⟩ ∧
    getHref ⟨TokenType.StartTagToken, "a", [⟨"", "href", "nightly/kicad-2024-nightly.zip"⟩]⟩
      = (true, "nightly/kicad-2024-nightly.zip") ∧
    fileExists emptyWorld.fs "nightly/kicad-2024-nightly.zip" = false ∧
    osIsNotExist (statError notDirEnv emptyWorld.fs "nightly/kicad-2024-nightly.zip") = false ∧
    downloadCalls (checknightlybuilds notDirEnv sampleSource "/tmp/out/" emptyWorld).2.trace
      = [] ∧
    creations (checknightlybuilds notDirEnv sampleSource "/tmp/out/" emptyWorld).2.trace = [] ∧
    (checknightlybuilds notDirEnv sampleSource "/tmp/out/" emptyWorld).1
      = GoResult.ok ("/tmp/out/" ++ "nightly/kicad-2024-nightly.zip", none) := by
  have hlast : (anchorLoop sampleListingSubdir.Body.tokens []).getLast?
      = some ⟨TokenType.StartTagToken, "a",
          [⟨"", "href", "nightly/kicad-2024-nightly.zip"⟩]⟩ := by decide
  have hhref : getHref
      ⟨TokenType.StartTagToken, "a", [⟨"", "href", "nightly/kicad-2024-nightly.zip"⟩]⟩
      = (true, "nightly/kicad-2024-nightly.zip") := by decide
  have hstat : osIsNotExist
      (statError notDirEnv emptyWorld.fs "nightly/kicad-2024-nightly.zip") = false := by
    decide
  have hst : osIsNotExist (osStat notDirEnv "nightly/kicad-2024-nightly.zip"
      (println "nightly/kicad-2024-nightly.zip"
        (httpGet notDirEnv sampleSource emptyWorld).2)).1 = false := by
    simpa [osStat, println, httpGet, World.emit] using hstat
  have hun := checknightlybuilds_unfold notDirEnv sampleSource "/tmp/out/" emptyWorld
    sampleListingSubdir _ (by simp [notDirEnv]) hlast
  rw [hhref] at hun
  simp only [hst, if_true, not_true_eq_false, if_false] at hun
  refine ⟨hlast, hhref, by decide, hstat, ?_, ?_, ?_⟩
  · rw [hun]
    simp [osStat, println, httpGet, World.emit, emptyWorld, downloadCalls]
  · rw [hun]
    simp [osStat, println, httpGet, World.emit, emptyWorld, creations]
  · rw [hun]
    simp

/-- Witness of C3, amended: the listing whose last anchor is
`<a href="kicad-2024-nightly.zip">`, the destination `/tmp/out/`, no file on
disk, and a download that succeeds. -/
theorem checknightlybuilds_downloads_missing_witness :
    downloadCalls
        (checknightlybuilds (sampleEnv sampleListing) sampleSource "/tmp/out/" emptyWorld).2.trace
      = downloadCalls emptyWorld.trace
          ++ [("/tmp/out/" ++ "kicad-2024-nightly.zip",
               sampleSource ++ "kicad-2024-nightly.zip")] ∧
    (checknightlybuilds (sampleEnv sampleListing) sampleSource "/tmp/out/" emptyWorld).1
      = GoResult.ok ("/tmp/out/" ++ "kicad-2024-nightly.zip", none) :=
  have h := checknightlybuilds_downloads_missing (sampleEnv sampleListing) sampleSource
    "/tmp/out/" emptyWorld sampleListing
    ⟨TokenType.StartTagToken, "a", [⟨"", "href", "kicad-2024-nightly.zip"⟩]⟩
    "kicad-2024-nightly.zip" (by simp [sampleEnv]) (by decide) (by decide) rfl (by decide)
  ⟨h.1, h.2.2 (downloadFile_success (sampleEnv sampleListing)
    ("/tmp/out/" ++ "kicad-2024-nightly.zip") (sampleSource ++ "kicad-2024-nightly.zip")
    (afterCheck emptyWorld sampleSource "kicad-2024-nightly.zip") sampleFile rfl
    (by simp [sampleEnv, sampleSource]) rfl (by decide))⟩

theorem checknightlybuilds_present (env : Env) (sourceurl downloadto : String)
    (w : World) (resp : Response) (t : Token) (link : String)
    (hget : env.net w.gets sourceurl = (some resp, none))
    (hlast : (anchorLoop resp.Body.tokens []).getLast? = some t)
    (hhref : getHref t = (true, link))
    (hpresent : fileExists w.fs link = true) :
    checknightlybuilds env sourceurl downloadto w
      = (GoResult.ok (downloadto ++ link, none), afterCheck w sourceurl link) := by
  have hst : osIsNotExist (osStat env link (println link (httpGet env sourceurl w).2)).1
      = false := by
    have := statError_present env w.fs link hpresent
    simpa [osStat, println, httpGet, World.emit] using this
  have hw := afterCheck_eq env w sourceurl link
  have hun := checknightlybuilds_unfold env sourceurl downloadto w resp t hget hlast
  rw [hhref] at hun
  simpa [hst, hw] using hun

/-- C4: when the last anchor of the fetched listing has the `href` value
`link` and the bare path `link` is already on disk, `checknightlybuilds`
returns `(downloadto ++ link, nil)` and its only effects are the GET of the
listing, the printed link and the existence check: `downloadFile` is not
called, no file is created or truncated and the files on disk are unchanged.
Run a second time in the resulting world (the listing again ending in that
link), it returns the same path and again leaves the files unchanged. -/
theorem checknightlybuilds_idempotent (env : Env) (sourceurl downloadto : String)
    (w : World) (resp resp2 : Response) (t t2 : Token) (link : String)
    (hget : env.net w.gets sourceurl = (some resp, none))
    (hlast : (anchorLoop resp.Body.tokens []).getLast? = some t)
    (hhref : getHref t = (true, link))
    (hget2 : env.net (w.gets + 1) sourceurl = (some resp2, none))
    (hlast2 : (anchorLoop resp2.Body.tokens []).getLast? = some t2)
    (hhref2 : getHref t2 = (true, link))
    (hpresent : fileExists w.fs link = true) :
    (checknightlybuilds env sourceurl downloadto w).1
      = GoResult.ok (downloadto ++ link, none) ∧
    (checknightlybuilds env sourceurl downloadto w).2.trace
      = w.trace ++ [Event.httpGet sourceurl, Event.stdout link, Event.stat link] ∧
    downloadCalls (checknightlybuilds env sourceurl downloadto w).2.trace
      = downloadCalls w.trace ∧
    creations (checknightlybuilds env sourceurl downloadto w).2.trace = creations w.trace ∧
    (checknightlybuilds env sourceurl downloadto w).2.fs = w.fs ∧
    (checknightlybuilds env sourceurl downloadto
        (checknightlybuilds env sourceurl downloadto w).2).1
      = GoResult.ok (downloadto ++ link, none) ∧
    downloadCalls (checknightlybuilds env sourceurl downloadto
        (checknightlybuilds env sourceurl downloadto w).2).2.trace = downloadCalls w.trace ∧
    creations (checknightlybuilds env sourceurl downloadto
        (checknightlybuilds env sourceurl downloadto w).2).2.trace = creations w.trace ∧
    (checknightlybuilds env sourceurl downloadto
        (checknightlybuilds env sourceurl downloadto w).2).2.fs = w.fs := by
  have h1 := checknightlybuilds_present env sourceurl downloadto w resp t link
    hget hlast hhref hpresent
  have h2 := checknightlybuilds_present env sourceurl downloadto
    (afterCheck w sourceurl link) resp2 t2 link hget2 hlast2 hhref2 hpresent
  rw [h1]
  simp only []
  rw [h2]
  simp [afterCheck, downloadCalls, creations, List.filterMap_append]

/-- Witness of C4: the bare name `kicad-2024-nightly.zip` is on disk. -/
theorem checknightlybuilds_idempotent_witness :
    (checknightlybuilds (sampleEnv sampleListing) sampleSource "/tmp/out/" haveWorld).1
      = GoResult.ok ("/tmp/out/" ++ "kicad-2024-nightly.zip", none) ∧
    (checknightlybuilds (sampleEnv sampleListing) sampleSource "/tmp/out/" haveWorld).2.fs
      = haveWorld.fs ∧
    (checknightlybuilds (sampleEnv sampleListing) sampleSource "/tmp/out/"
        (checknightlybuilds (sampleEnv sampleListing) sampleSource "/tmp/out/" haveWorld).2).1
      = GoResult.ok ("/tmp/out/" ++ "kicad-2024-nightly.zip", none) ∧
    (checknightlybuilds (sampleEnv sampleListing) sampleSource "/tmp/out/"
        (checknightlybuilds (sampleEnv sampleListing) sampleSource "/tmp/out/" haveWorld).2).2.fs
      = haveWorld.fs :=
  have h := checknightlybuilds_idempotent (sampleEnv sampleListing) sampleSource "/tmp/out/"
    haveWorld sampleListing sampleListing
    ⟨TokenType.StartTagToken, "a", [⟨"", "href", "kicad-2024-nightly.zip"⟩]⟩
    ⟨TokenType.StartTagToken, "a", [⟨"", "href", "kicad-2024-nightly.zip"⟩]⟩
    "kicad-2024-nightly.zip" (by simp [sampleEnv]) (by decide) (by decide)
    (by simp [sampleEnv]) (by decide) (by decide) (by decide)
  ⟨h.1, h.2.2.2.2.1, h.2.2.2.2.2.1, h.2.2.2.2.2.2.2.2⟩

/-- Witness of C5: the last anchor is `<a name="top">`, after an anchor that
has an `href`. -/
theorem checknightlybuilds_missing_href_witness :
    (checknightlybuilds (sampleEnv sampleListingNoHref) sampleSource "/tmp/out/" emptyWorld).1
      = GoResult.ok ("", some (GoError.errorString "getHref failed")) ∧
    (checknightlybuilds (sampleEnv sampleListingNoHref) sampleSource "/tmp/out/"
        emptyWorld).2.trace
      = emptyWorld.trace ++ [Event.httpGet sampleSource, Event.stdout ""] :=
  have h := checknightlybuilds_missing_href (sampleEnv sampleListingNoHref) sampleSource
    "/tmp/out/" emptyWorld sampleListingNoHref
    ⟨TokenType.StartTagToken, "a", [⟨"", "name", "top"⟩]⟩
    (by simp [sampleEnv]) (by decide) (by decide)
  ⟨h.1, h.2.2.1⟩

/-! ## Theorems: the empty anchor list -/

/-- A `downloadFile` call returns or panics on the nil response; it never
ends the process and never indexes out of range. -/
theorem downloadFile_result (env : Env) (filepath url : String) (w : World) :
    (∃ err, (downloadFile env filepath url w).1 = GoResult.ok err) ∨
    (downloadFile env filepath url w).1 = GoResult.panicked nilDereference := by
  unfold downloadFile
  simp only []
  split
  · exact Or.inl ⟨_, rfl⟩
  · split
    · exact Or.inr rfl
    · split
      · exact Or.inl ⟨_, rfl⟩
      · split
        · exact Or.inl ⟨_, rfl⟩
        · exact Or.inl ⟨_, rfl⟩

theorem nilDereference_ne_indexOutOfRange : nilDereference ≠ indexOutOfRange := by
  decide

/-- C8: when the fetched listing yields no anchor token (an empty body is one
such listing), `checknightlybuilds` neither returns a value nor an error: the
index `atokens[len(atokens)-1]` is out of range and the call panics; when the
listing yields at least one anchor token the index is in range, it selects the
last collected anchor, and the call does not end in that panic. -/
theorem checknightlybuilds_no_anchor_panics (env : Env) (sourceurl downloadto : String)
    (w : World) (resp : Response)
    (hget : env.net w.gets sourceurl = (some resp, none)) :
    (anchorLoop resp.Body.tokens [] = [] →
      (checknightlybuilds env sourceurl downloadto w).1
        = GoResult.panicked indexOutOfRange) ∧
    anchorLoop [] [] = [] ∧
    (∀ hne : anchorLoop resp.Body.tokens [] ≠ [],
      sliceIndex (anchorLoop resp.Body.tokens []) (sliceLen (anchorLoop resp.Body.tokens []) - 1)
        = GoResult.ok ((anchorLoop resp.Body.tokens []).getLast hne) ∧
      (checknightlybuilds env sourceurl downloadto w).1
        ≠ GoResult.panicked indexOutOfRange) := by
  refine ⟨?_, rfl, ?_⟩
  · intro hnil
    simp only [checknightlybuilds, httpGet, hget, hnil, sliceIndex_nil]
  · intro hne
    have hlast : (anchorLoop resp.Body.tokens []).getLast?
        = some ((anchorLoop resp.Body.tokens []).getLast hne) :=
      List.getLast?_eq_getLast _ hne
    refine ⟨sliceIndex_last _ _ hlast, ?_⟩
    rw [checknightlybuilds_unfold env sourceurl downloadto w resp _ hget hlast]
    split
    · simp
    · split
      · rcases downloadFile_result env
            (downloadto ++ (getHref ((anchorLoop resp.Body.tokens []).getLast hne)).2)
            (sourceurl ++ (getHref ((anchorLoop resp.Body.tokens []).getLast hne)).2)
            (osStat env (getHref ((anchorLoop resp.Body.tokens []).getLast hne)).2
              (println (getHref ((anchorLoop resp.Body.tokens []).getLast hne)).2
                (httpGet env sourceurl w).2)).2 with ⟨err, h⟩ | h
        · split <;> rename_i heq <;> rw [heq] at h <;> simp_all
        · split <;> rename_i heq <;> rw [heq] at h <;> simp_all
          exact fun hc => nilDereference_ne_indexOutOfRange (h ▸ hc)
      · simp

/-- Witness of C8: a listing with an empty body panics; in the sample listing
the index selects the last anchor. -/
theorem checknightlybuilds_no_anchor_panics_witness :
    (checknightlybuilds (sampleEnv ⟨⟨[], []⟩, 0⟩) sampleSource "/tmp/out/" emptyWorld).1
      = GoResult.panicked indexOutOfRange ∧
    ∃ hne : anchorLoop sampleListing.Body.tokens [] ≠ [],
      sliceIndex (anchorLoop sampleListing.Body.tokens [])
          (sliceLen (anchorLoop sampleListing.Body.tokens []) - 1)
        = GoResult.ok ((anchorLoop sampleListing.Body.tokens []).getLast hne) :=
  ⟨(checknightlybuilds_no_anchor_panics (sampleEnv ⟨⟨[], []⟩, 0⟩) sampleSource "/tmp/out/"
      emptyWorld ⟨⟨[], []⟩, 0⟩ (by simp [sampleEnv])).1 rfl,
   ⟨by decide,
    ((checknightlybuilds_no_anchor_panics (sampleEnv sampleListing) sampleSource "/tmp/out/"
      emptyWorld sampleListing (by simp [sampleEnv])).2.2 (by decide)).1⟩⟩

/-! ## Theorems: the polling loop -/

theorem checknightlybuilds_removals (env : Env) (sourceurl downloadto : String) (w : World) :
    removals (checknightlybuilds env sourceurl downloadto w).2.trace = removals w.trace := by
  unfold checknightlybuilds
  simp only []
  split
  · simp [httpGet, removals, List.filterMap_append]
  · split
    · simp [httpGet, removals, List.filterMap_append]
    · split
      · simp [httpGet, removals, List.filterMap_append]
      · simp [httpGet, removals, List.filterMap_append]
      · split
        · simp [httpGet, println, World.emit, removals, List.filterMap_append]
        · split
          · rename_i resp _ lasttoken _ _ _
            have hd := downloadFile_removals env
              (downloadto ++ (getHref lasttoken).2) (sourceurl ++ (getHref lasttoken).2)
              (osStat env (getHref lasttoken).2
                (println (getHref lasttoken).2 (httpGet env sourceurl w).2)).2
            have hpre : removals (osStat env (getHref lasttoken).2
                (println (getHref lasttoken).2 (httpGet env sourceurl w).2)).2.trace
                = removals w.trace := by
              simp [osStat, httpGet, println, World.emit, removals, List.filterMap_append]
            rw [hpre] at hd
            split <;> rename_i heq <;> rw [heq] at hd <;> exact hd
          · simp [osStat, httpGet, println, World.emit, removals, List.filterMap_append]

theorem mainIteration_removals (env : Env) (sourceurl downloadto : String) (w : World) :
    removals (mainIteration env sourceurl downloadto w).2.trace = removals w.trace := by
  have hc := checknightlybuilds_removals env sourceurl downloadto w
  unfold mainIteration
  simp only []
  split <;> rename_i heq <;> rw [heq] at hc <;>
    simp_all [println, sleepHour, World.emit, removals, List.filterMap_append]

/-- C9: in the polling loop of `main` the removal of the previous download is
dead code: each iteration declares `lastdownload` afresh, so the test
`lastdownload != ""` is false where it is evaluated, and after any number of
iterations, in any world and against any outside, the trace holds no
`os.Remove` beyond those it started with. -/
theorem mainLoop_never_removes (env : Env) (sourceurl downloadto : String) (n : Nat)
    (w : World) :
    removals (mainLoop env sourceurl downloadto n w).2.trace = removals w.trace := by
  induction n generalizing w with
  | zero => rfl
  | succ k ih =>
    have hi := mainIteration_removals env sourceurl downloadto w
    unfold mainLoop
    split <;> rename_i heq <;> rw [heq] at hi
    · rw [ih]
      exact hi
    · exact hi
    · exact hi

/-! ## Theorems: `downloadFile` -/

/-- The creation failure is returned. -/
theorem downloadFile_create_fails (env : Env) (filepath url : String) (w : World)
    (e : GoError) (hcreate : env.createFault filepath = some e) :
    (downloadFile env filepath url w).1 = GoResult.ok (some e) := by
  simp [downloadFile, osCreate, hcreate]

/-- With a response, a GET error is returned. -/
theorem downloadFile_get_error_with_response (env : Env) (filepath url : String) (w : World)
    (response : Response) (e : GoError) (hcreate : env.createFault filepath = none)
    (hget : env.net w.gets url = (some response, some e)) :
    (downloadFile env filepath url w).1 = GoResult.ok (some e) := by
  simp [downloadFile, osCreate, hcreate, httpGet, println, World.emit, hget]

/-- Without a response, the GET error is not returned: the call panics. -/
theorem downloadFile_get_error_nil_response (env : Env) (filepath url : String) (w : World)
    (e : GoError) (hcreate : env.createFault filepath = none)
    (hget : env.net w.gets url = (none, some e)) :
    (downloadFile env filepath url w).1 = GoResult.panicked nilDereference := by
  simp [downloadFile, osCreate, hcreate, httpGet, println, World.emit, hget]

/-- C6, the failing input: the file `/tmp/out/kicad-2024-nightly.zip` is
created, the GET fails with `(nil, err)`, and `downloadFile` does not return
the GET error: it panics on `response.Body` (a nil dereference), before the
test `if err != nil`. -/
theorem downloadFile_get_failure_panics :
    (downloadFile offlineEnv "/tmp/out/kicad-2024-nightly.zip"
        (sampleSource ++ "kicad-2024-nightly.zip") emptyWorld).1
      = GoResult.panicked nilDereference ∧
    (downloadFile offlineEnv "/tmp/out/kicad-2024-nightly.zip"
        (sampleSource ++ "kicad-2024-nightly.zip") emptyWorld).1
      ≠ GoResult.ok (some (GoError.errorString "dial tcp: no such host")) ∧
    offlineEnv.net 0 (sampleSource ++ "kicad-2024-nightly.zip")
      = (none, some (GoError.errorString "dial tcp: no such host")) := by
  have h := downloadFile_get_error_nil_response offlineEnv "/tmp/out/kicad-2024-nightly.zip"
    (sampleSource ++ "kicad-2024-nightly.zip") emptyWorld
    (GoError.errorString "dial tcp: no such host") rfl rfl
  refine ⟨h, ?_, rfl⟩
  rw [h]
  simp

/-! ## Theorems: the progress output of `PassThru.Read` -/

theorem wrapInt64_of_range (x : Int) (h0 : 0 ≤ x) (h1 : x < 2 ^ 63) : wrapInt64 x = x := by
  unfold wrapInt64
  omega

theorem decile_eq_floor (l t : Int) (hl : 0 < l) (ht : 0 ≤ t) :
    decile l t = ⌊(t : ℚ) / (l : ℚ) * 100 / 10⌋ := by
  have hl' : (0 : ℚ) < (l : ℚ) := by exact_mod_cast hl
  have ht' : (0 : ℚ) ≤ (t : ℚ) := by exact_mod_cast ht
  have hq : (0 : ℚ) ≤ (t : ℚ) / (l : ℚ) * 100 / 10 := by positivity
  simp [decile, truncToInt, hq]

theorem decile_mono (l t1 t2 : Int) (hl : 0 < l) (h0 : 0 ≤ t1) (h12 : t1 ≤ t2) :
    decile l t1 ≤ decile l t2 := by
  have hl' : (0 : ℚ) < (l : ℚ) := by exact_mod_cast hl
  have h12' : (t1 : ℚ) ≤ (t2 : ℚ) := by exact_mod_cast h12
  rw [decile_eq_floor l t1 hl h0, decile_eq_floor l t2 hl (le_trans h0 h12)]
  apply Int.floor_mono
  have : (t1 : ℚ) / (l : ℚ) ≤ (t2 : ℚ) / (l : ℚ) := by gcongr
  linarith

theorem decile_nonneg (l t : Int) (hl : 0 < l) (ht : 0 ≤ t) : 0 ≤ decile l t := by
  have hl' : (0 : ℚ) < (l : ℚ) := by exact_mod_cast hl
  have ht' : (0 : ℚ) ≤ (t : ℚ) := by exact_mod_cast ht
  rw [decile_eq_floor l t hl ht]
  apply Int.floor_nonneg.mpr
  positivity

theorem decile_le_ten (l t : Int) (hl : 0 < l) (ht : 0 ≤ t) (htl : t ≤ l) :
    decile l t ≤ 10 := by
  have hl' : (0 : ℚ) < (l : ℚ) := by exact_mod_cast hl
  have htl' : (t : ℚ) ≤ (l : ℚ) := by exact_mod_cast htl
  rw [decile_eq_floor l t hl ht]
  have h1 : (t : ℚ) / (l : ℚ) ≤ 1 := (div_le_one hl').mpr htl'
  have h2 : (t : ℚ) / (l : ℚ) * 100 / 10 ≤ ((10 : Int) : ℚ) := by
    push_cast
    linarith
  exact Int.cast_le.mp (le_trans (Int.floor_le _) h2)

theorem decile_le_nine (l t : Int) (hl : 0 < l) (ht : 0 ≤ t) (htl : t < l) :
    decile l t ≤ 9 := by
  have hl' : (0 : ℚ) < (l : ℚ) := by exact_mod_cast hl
  have htl' : (t : ℚ) < (l : ℚ) := by exact_mod_cast htl
  rw [decile_eq_floor l t hl ht]
  have h1 : (t : ℚ) / (l : ℚ) < 1 := (div_lt_one hl').mpr htl'
  have h2 : (t : ℚ) / (l : ℚ) * 100 / 10 < ((10 : Int) : ℚ) := by
    push_cast
    linarith
  have h3 : ⌊(t : ℚ) / (l : ℚ) * 100 / 10⌋ < 10 := Int.floor_lt.mpr h2
  omega

theorem toString_digit (d : Int) (h0 : 0 ≤ d) (h9 : d ≤ 9) : (toString d).length = 1 := by
  interval_cases d <;> rfl

/-- One `Read` either emits one item and raises the recorded progress by more
than 2, or emits nothing and leaves the recorded progress as it is. -/
theorem PassThru.Read_progress (pt : PassThru) (r : ReadResult) (w : World) :
    (∃ s, (pt.Read r w).2.2.trace = w.trace ++ [Event.stderr s] ∧
        (pt.Read r w).2.1.progress > pt.progress + 2) ∨
    ((pt.Read r w).2.2.trace = w.trace ∧ (pt.Read r w).2.1.progress = pt.progress) := by
  unfold PassThru.Read
  by_cases h : r.n > 0
  · simp only [h, if_true]
    split
    · rename_i hgt
      refine Or.inl ⟨_, rfl, ?_⟩
      simp only []
      linarith
    · exact Or.inr ⟨rfl, rfl⟩
  · simp [h]

/-- One `Read` within the expected length: the new total, and the item
emitted, if any. -/
theorem PassThru.Read_step (pt : PassThru) (r : ReadResult) (w : World)
    (h0 : 0 ≤ pt.total) (h63 : pt.total + (r.n : Int) < 2 ^ 63) :
    (pt.Read r w).2.1.length = pt.length ∧
    (pt.Read r w).2.1.total = pt.total + (r.n : Int) ∧
    (((pt.Read r w).2.2.trace
          = w.trace ++ [Event.stderr (toString (decile pt.length (pt.total + (r.n : Int))))] ∧
        (pt.Read r w).2.1.progress
          = ((pt.total + (r.n : Int) : Int) : ℚ) / (pt.length : ℚ) * 100 ∧
        (pt.Read r w).2.1.progress > pt.progress + 2) ∨
      ((pt.Read r w).2.2.trace = w.trace ∧ (pt.Read r w).2.1.progress = pt.progress)) := by
  have hw : wrapInt64 (pt.total + (r.n : Int)) = pt.total + (r.n : Int) :=
    wrapInt64_of_range _ (by omega) h63
  unfold PassThru.Read
  by_cases h : r.n > 0
  · simp only [h, if_true, hw]
    split
    · rename_i hgt
      refine ⟨rfl, rfl, Or.inl ⟨rfl, rfl, ?_⟩⟩
      simp only []
      linarith
    · exact ⟨rfl, rfl, Or.inr ⟨rfl, rfl⟩⟩
  · have hn : r.n = 0 := by omega
    simp [hn]

theorem totalBytes_cons (r : ReadResult) (rs : List ReadResult) :
    totalBytes (r :: rs) = r.n + totalBytes rs := by
  simp [totalBytes]

/-- A sequence of reads within the expected length `L`, from a state that has
emitted `k` items: the items emitted are the deciles of cumulative totals, in
non-decreasing order, and fewer than 50 items are emitted in all. -/
theorem readSeq_spec (L : Int) (hL : 0 < L) (hL63 : L < 2 ^ 63) (rs : List ReadResult) :
    ∀ (pt : PassThru) (w : World) (k : Nat),
      pt.length = L → 0 ≤ pt.total → pt.total + (totalBytes rs : Int) ≤ L →
      pt.progress ≤ (pt.total : ℚ) / (L : ℚ) * 100 →
      2 * (k : ℚ) ≤ pt.progress → (0 < k → 2 * (k : ℚ) < pt.progress) →
      ∃ ds : List Int,
        (PassThru.readSeq rs pt w).2.trace
          = w.trace ++ ds.map (fun d => Event.stderr (toString d)) ∧
        ds.Pairwise (fun a b => a ≤ b) ∧
        (∀ d ∈ ds, decile L pt.total ≤ d ∧ d ≤ decile L (pt.total + (totalBytes rs : Int))) ∧
        (∀ d ∈ ds, ∃ j, d = decile L (pt.total + (totalBytes (rs.take j) : Int))) ∧
        k + ds.length < 50 := by
  have hLq : (0 : ℚ) < (L : ℚ) := by exact_mod_cast hL
  induction rs with
  | nil =>
    intro pt w k _ h0 hsum hprog hk hk'
    refine ⟨[], by simp [PassThru.readSeq], List.Pairwise.nil, by simp, by simp, ?_⟩
    have hsum' : pt.total ≤ L := by simpa [totalBytes] using hsum
    have hq : (pt.total : ℚ) / (L : ℚ) ≤ 1 :=
      (div_le_one hLq).mpr (by exact_mod_cast hsum')
    have hp100 : pt.progress ≤ 100 := by linarith
    by_cases hkz : 0 < k
    · have h1 := hk' hkz
      have h2 : (k : ℚ) < 50 := by linarith
      have h3 : k < 50 := by exact_mod_cast h2
      simpa using h3
    · simp
      omega
  | cons r rest ih =>
    intro pt w k hlen h0 hsum hprog hk hk'
    rw [totalBytes_cons] at hsum
    push_cast at hsum
    have hrest0 : (0 : Int) ≤ (totalBytes rest : Int) := Int.natCast_nonneg _
    have hrn0 : (0 : Int) ≤ (r.n : Int) := Int.natCast_nonneg _
    have h63 : pt.total + (r.n : Int) < 2 ^ 63 := by omega
    obtain ⟨hl1, ht1, hcase⟩ := PassThru.Read_step pt r w h0 h63
    have ht1_0 : 0 ≤ (pt.Read r w).2.1.total := by rw [ht1]; omega
    have hsum1 : (pt.Read r w).2.1.total + (totalBytes rest : Int) ≤ L := by
      rw [ht1]; omega
    have hlen1 : (pt.Read r w).2.1.length = L := by rw [hl1, hlen]
    have hmono : (pt.total : ℚ) / (L : ℚ) * 100
        ≤ ((pt.Read r w).2.1.total : ℚ) / (L : ℚ) * 100 := by
      have : (pt.total : ℚ) ≤ ((pt.Read r w).2.1.total : ℚ) := by
        rw [ht1]
        exact_mod_cast (by omega : pt.total ≤ pt.total + (r.n : Int))
      have : (pt.total : ℚ) / (L : ℚ) ≤ ((pt.Read r w).2.1.total : ℚ) / (L : ℚ) := by
        gcongr
      linarith
    have hdec : decile L pt.total ≤ decile L (pt.Read r w).2.1.total := by
      apply decile_mono L _ _ hL h0
      rw [ht1]; omega
    have htot : (pt.Read r w).2.1.total + (totalBytes rest : Int)
        = pt.total + (((r.n + totalBytes rest : Nat)) : Int) := by
      rw [ht1]; push_cast; ring
    have hreadSeq : PassThru.readSeq (r :: rest) pt w
        = PassThru.readSeq rest (pt.Read r w).2.1 (pt.Read r w).2.2 := rfl
    rcases hcase with ⟨htr, hpr, hgt⟩ | ⟨htr, hpr⟩
    · -- an item is emitted
      have hprog1 : (pt.Read r w).2.1.progress
          ≤ ((pt.Read r w).2.1.total : ℚ) / (L : ℚ) * 100 := by
        rw [hpr, ht1, hlen]
      have hk1 : 2 * ((k + 1 : Nat) : ℚ) ≤ (pt.Read r w).2.1.progress := by
        push_cast; linarith
      have hk1' : 0 < k + 1 → 2 * ((k + 1 : Nat) : ℚ) < (pt.Read r w).2.1.progress := by
        intro _
        push_cast; linarith
      obtain ⟨ds, hds, hpw, hbd, hj, hcnt⟩ :=
        ih (pt.Read r w).2.1 (pt.Read r w).2.2 (k + 1) hlen1 ht1_0 hsum1 hprog1 hk1 hk1'
      refine ⟨decile L (pt.total + (r.n : Int)) :: ds, ?_, ?_, ?_, ?_, ?_⟩
      · rw [hreadSeq, hds, htr, hlen]
        simp
      · refine List.Pairwise.cons ?_ hpw
        intro d hd
        have := (hbd d hd).1
        rw [ht1] at this
        exact this
      · intro d hd
        rw [totalBytes_cons]
        rcases List.mem_cons.mp hd with rfl | hd
        · refine ⟨decile_mono L _ _ hL h0 (by omega), ?_⟩
          apply decile_mono L _ _ hL (by omega)
          push_cast; omega
        · have := hbd d hd
          rw [htot] at this
          exact ⟨le_trans hdec this.1, this.2⟩
      · intro d hd
        rcases List.mem_cons.mp hd with rfl | hd
        · exact ⟨1, by simp [totalBytes]⟩
        · obtain ⟨j, hjd⟩ := hj d hd
          refine ⟨j + 1, ?_⟩
          rw [hjd, ht1, List.take_succ_cons, totalBytes_cons]
          push_cast
          rw [add_assoc]
      · simp only [List.length_cons]
        omega
    · -- nothing is emitted
      have hprog1 : (pt.Read r w).2.1.progress
          ≤ ((pt.Read r w).2.1.total : ℚ) / (L : ℚ) * 100 := by
        rw [hpr]; linarith
      have hk1 : 2 * (k : ℚ) ≤ (pt.Read r w).2.1.progress := by rw [hpr]; exact hk
      have hk1' : 0 < k → 2 * (k : ℚ) < (pt.Read r w).2.1.progress := by
        rw [hpr]; exact hk'
      obtain ⟨ds, hds, hpw, hbd, hj, hcnt⟩ :=
        ih (pt.Read r w).2.1 (pt.Read r w).2.2 k hlen1 ht1_0 hsum1 hprog1 hk1 hk1'
      refine ⟨ds, ?_, hpw, ?_, ?_, hcnt⟩
      · rw [hreadSeq, hds, htr]
      · intro d hd
        rw [totalBytes_cons]
        have := hbd d hd
        rw [htot] at this
        exact ⟨le_trans hdec this.1, this.2⟩
      · intro d hd
        obtain ⟨j, hjd⟩ := hj d hd
        refine ⟨j + 1, ?_⟩
        rw [hjd, ht1, List.take_succ_cons, totalBytes_cons]
        push_cast
        rw [add_assoc]

theorem totalBytes_replicate (k m : Nat) :
    totalBytes (List.replicate k ⟨m, none⟩) = k * m := by
  induction k with
  | zero => simp [totalBytes]
  | succ j ih =>
    rw [List.replicate_succ, totalBytes_cons, ih]
    ring

theorem stderrItems_append (xs ys : List Event) :
    stderrItems (xs ++ ys) = stderrItems xs ++ stderrItems ys := by
  simp [stderrItems, List.filterMap_append]

theorem stderrItems_map (ds : List Int) :
    stderrItems (ds.map (fun d => Event.stderr (toString d))) = ds.map toString := by
  induction ds with
  | nil => rfl
  | cons d rest ih =>
    simp only [List.map_cons, stderrItems, List.filterMap_cons] at ih ⊢
    rw [ih]

/-- C7 as stated fails on its own example: for the 1000-byte transfer read in
ten 100-byte chunks the items written to standard error are `1`, ..., `9` and
then `10`, which is not a single decimal digit in 0..9. -/
theorem readSeq_emits_ten :
    (0 : Int) < 1000 ∧ totalBytes (List.replicate 10 ⟨100, none⟩) ≤ 1000 ∧
    stderrItems
        (PassThru.readSeq (List.replicate 10 ⟨100, none⟩)
          { total := 0, length := 1000, progress := 0 } emptyWorld).2.trace
      = ["1", "2", "3", "4", "5", "6", "7", "8", "9", "10"] ∧
    "10" ∉ ["0", "1", "2", "3", "4", "5", "6", "7", "8", "9"] ∧
    ("10" : String).length = 2 := by
  refine ⟨by decide, by decide, ?_, by decide, by decide⟩
  simp only [List.replicate, PassThru.readSeq, PassThru.Read, wrapInt64, truncToInt,
    emptyWorld, World.emit, stderrItems]
  norm_num
  decide

/-- C7, amended: for every expected length `L > 0` (an `int64`) and every
sequence of reads whose cumulative byte count does not exceed `L`, from
`total = 0` and `progress = 0`: each read emits at most one item; the items
emitted are the decimal renderings of deciles `int(percentage / 10)` of
cumulative totals, each in 0..10, in non-decreasing order; and as long as the
cumulative byte count stays below `L` each is a single decimal digit 0..9. -/
theorem readSeq_progress_deciles (L : Int) (rs : List ReadResult) (w : World)
    (hpos : 0 < L) (h63 : L < 2 ^ 63) (hsum : (totalBytes rs : Int) ≤ L) :
    (∀ (pt : PassThru) (r : ReadResult) (w0 : World),
      (stderrItems (pt.Read r w0).2.2.trace).length ≤ (stderrItems w0.trace).length + 1) ∧
    ∃ ds : List Int,
      (PassThru.readSeq rs { total := 0, length := L, progress := 0 } w).2.trace
        = w.trace ++ ds.map (fun d => Event.stderr (toString d)) ∧
      stderrItems (PassThru.readSeq rs { total := 0, length := L, progress := 0 } w).2.trace
        = stderrItems w.trace ++ ds.map toString ∧
      ds.Pairwise (fun a b => a ≤ b) ∧
      (∀ d ∈ ds, ∃ j, d = decile L (totalBytes (rs.take j) : Int)) ∧
      (∀ d ∈ ds, 0 ≤ d ∧ d ≤ 10) ∧
      ((totalBytes rs : Int) < L → ∀ d ∈ ds, d ≤ 9 ∧ (toString d).length = 1) := by
  constructor
  · intro pt r w0
    rcases PassThru.Read_trace pt r w0 with h | ⟨s, h⟩
    · rw [h]; omega
    · rw [h, stderrItems_append]
      simp [stderrItems]
  · obtain ⟨ds, hds, hpw, hbd, hj, _⟩ :=
      readSeq_spec L hpos h63 rs { total := 0, length := L, progress := 0 } w 0 rfl
        (le_refl _) (by simpa using hsum) (by simp) (by simp) (by simp)
    have hnn : (0 : Int) ≤ (totalBytes rs : Int) := Int.natCast_nonneg _
    have hlow : ∀ d ∈ ds, 0 ≤ d := fun d hd =>
      le_trans (decile_nonneg L 0 hpos (le_refl _)) (hbd d hd).1
    refine ⟨ds, hds, ?_, hpw, ?_, ?_, ?_⟩
    · rw [hds, stderrItems_append, stderrItems_map]
    · intro d hd
      obtain ⟨j, hjd⟩ := hj d hd
      exact ⟨j, by simpa using hjd⟩
    · intro d hd
      refine ⟨hlow d hd, le_trans (hbd d hd).2 ?_⟩
      exact decile_le_ten L _ hpos (by simp) (by simpa using hsum)
    · intro hlt d hd
      have h9 : d ≤ 9 :=
        le_trans (hbd d hd).2
          (decile_le_nine L _ hpos (by simp) (by simpa using hlt))
      exact ⟨h9, toString_digit d (hlow d hd) h9⟩

/-- Witness of C7, amended: a 1000-byte transfer of which nine 100-byte
chunks are read; every item is a single digit. -/
theorem readSeq_progress_deciles_witness :
    ∃ ds : List Int,
      stderrItems (PassThru.readSeq (List.replicate 9 ⟨100, none⟩)
          { total := 0, length := 1000, progress := 0 } emptyWorld).2.trace
        = stderrItems emptyWorld.trace ++ ds.map toString ∧
      ds.Pairwise (fun a b => a ≤ b) ∧
      (∀ d ∈ ds, 0 ≤ d ∧ d ≤ 10) ∧
      (∀ d ∈ ds, d ≤ 9 ∧ (toString d).length = 1) :=
  match (readSeq_progress_deciles 1000 (List.replicate 9 ⟨100, none⟩) emptyWorld
    (by decide) (by decide) (by decide)).2 with
  | ⟨ds, _, h2, h3, _, h5, h6⟩ => ⟨ds, h2, h3, h5, h6 (by decide)⟩

/-- C10: with the percentage taken exactly, each `Read` either emits one item
and raises the recorded progress by more than 2, or emits nothing and leaves
it unchanged; so for every expected length `L > 0` (an `int64`) and every
sequence of reads, however small, whose cumulative byte count does not exceed
`L`, from `total = 0` and `progress = 0`, fewer than 50 items are emitted. -/
theorem readSeq_emissions_bounded (L : Int) (rs : List ReadResult) (w : World)
    (hpos : 0 < L) (h63 : L < 2 ^ 63) (hsum : (totalBytes rs : Int) ≤ L) :
    (∀ (pt : PassThru) (r : ReadResult) (w0 : World),
      (∃ s, (pt.Read r w0).2.2.trace = w0.trace ++ [Event.stderr s] ∧
          (pt.Read r w0).2.1.progress > pt.progress + 2) ∨
      ((pt.Read r w0).2.2.trace = w0.trace ∧ (pt.Read r w0).2.1.progress = pt.progress)) ∧
    (stderrItems (PassThru.readSeq rs { total := 0, length := L, progress := 0 } w).2.trace).length
      < (stderrItems w.trace).length + 50 := by
  refine ⟨fun pt r w0 => PassThru.Read_progress pt r w0, ?_⟩
  obtain ⟨ds, hds, _, _, _, hcnt⟩ :=
    readSeq_spec L hpos h63 rs { total := 0, length := L, progress := 0 } w 0 rfl
      (le_refl _) (by simpa using hsum) (by simp) (by simp) (by simp)
  rw [hds, stderrItems_append, stderrItems_map]
  simp only [List.length_append, List.length_map]
  omega

/-- Witness of C10: a 1000-byte transfer read one byte at a time. -/
theorem readSeq_emissions_bounded_witness :
    (∀ (pt : PassThru) (r : ReadResult) (w0 : World),
      (∃ s, (pt.Read r w0).2.2.trace = w0.trace ++ [Event.stderr s] ∧
          (pt.Read r w0).2.1.progress > pt.progress + 2) ∨
      ((pt.Read r w0).2.2.trace = w0.trace ∧ (pt.Read r w0).2.1.progress = pt.progress)) ∧
    (stderrItems (PassThru.readSeq (List.replicate 1000 ⟨1, none⟩)
        { total := 0, length := 1000, progress := 0 } emptyWorld).2.trace).length
      < (stderrItems emptyWorld.trace).length + 50 :=
  readSeq_emissions_bounded 1000 (List.replicate 1000 ⟨1, none⟩) emptyWorld
    (by decide) (by decide) (by rw [totalBytes_replicate]; decide)

end Knd
